import Mathlib

/-!
Verification of the WoL VLAN WebApp core (server.js) against its
natural-language specification.

The development shallowly embeds the server's pure logic:
strings are Lean `String`s (JS string primitives are translated to
executable list-of-char operations), the persisted `storage.json`
document is the `Store` structure, each Express handler becomes a pure
function from the persisted state and the (already JSON-parsed) request
to a response together with the new persisted state and the network /
socket effects it performs.  Network transports (`fetch` to an agent,
the `wakeonlan` UDP send) are parameters of the handler functions: a
handler receives the outcome the transport would produce and the
theorems quantify over it.
-/

namespace WoL

/-! ## Character primitives (JS string builtins) -/

/-- Whitespace recognised by `String.prototype.trim` (ASCII subset:
space, tab, LF, VT, FF, CR; MAC strings and the handlers only ever meet
these). -/
def isWsChar (c : Char) : Bool :=
  c.toNat = 32 || c.toNat = 9 || c.toNat = 10 || c.toNat = 11 || c.toNat = 12 || c.toNat = 13

/-- JS `s.trim()` on a list of characters: drop whitespace from both ends. -/
def trimL (l : List Char) : List Char :=
  ((l.dropWhile isWsChar).reverse.dropWhile isWsChar).reverse

/-- JS `s.trim()`. -/
def jsTrim (s : String) : String := ⟨trimL s.data⟩

/-- One character of the global dash-to-colon replace used by
`normalizeMac` (JS `replace` with the global dash regex and `':'`). -/
def sepToColon (c : Char) : Char := if c = '-' then ':' else c

/-- One character of `s.toLowerCase()` on the ASCII range (code points
65–90 map to 97–122, everything else is unchanged); all strings the
server lower-cases are ASCII. -/
def toLowerJs (c : Char) : Char :=
  if 65 ≤ c.toNat ∧ c.toNat ≤ 90 then Char.ofNat (c.toNat + 32) else c

/-- server.js `normalizeMac` on a character list: trim, replace every
dash with a colon, lower-case (in that order, as in the source). -/
def normalizeMacL (l : List Char) : List Char :=
  ((trimL l).map sepToColon).map toLowerJs

/-- server.js `normalizeMac(mac)`. -/
def normalizeMac (s : String) : String := ⟨normalizeMacL s.data⟩

/-- Hexadecimal digit `[0-9A-Fa-f]` of the `isMac` regex. -/
def isHexDigit (c : Char) : Bool :=
  (48 ≤ c.toNat && c.toNat ≤ 57) || (97 ≤ c.toNat && c.toNat ≤ 102) || (65 ≤ c.toNat && c.toNat ≤ 70)

/-- Separator `[-:]` of the `isMac` regex. -/
def isSepChar (c : Char) : Bool := c = ':' || c = '-'

/-- The regex `^([0-9A-Fa-f]{2}([-:])){5}[0-9A-Fa-f]{2}$` unrolled:
`macGroups (n+1)` consumes one `hex hex sep` group, `macGroups 0` the
final `hex hex`. -/
def macGroups : Nat → List Char → Bool
  | 0, [c0, c1] => isHexDigit c0 && isHexDigit c1
  | n + 1, c0 :: c1 :: p :: rest => isHexDigit c0 && isHexDigit c1 && isSepChar p && macGroups n rest
  | _, _ => false

/-- server.js `isMac(mac)`: test of the MAC regex (five `hex hex sep`
groups then a final hex pair; `:` and `-` separators may be mixed). -/
def isMac (s : String) : Bool := macGroups 5 s.data

/-- JS `String.prototype.startsWith` restricted to a literal needle
(character-by-character comparison). -/
def startsWithJs : List Char → List Char → Bool
  | [], _ => true
  | _ :: _, [] => false
  | p :: ps, c :: cs => p = c && startsWithJs ps cs

/-- The scheme check of the agent handlers:
`url.startsWith('http://') || url.startsWith('https://')`. -/
def urlSchemeOk (url : String) : Bool :=
  startsWithJs "http://".data url.data || startsWithJs "https://".data url.data

/-- JS `url.replace(/\/+$/, '')`: strip every trailing slash. -/
def stripTrailingSlashes (s : String) : String :=
  ⟨(s.data.reverse.dropWhile (fun c => c = '/')).reverse⟩

/-! ## Persisted data model (`storage.json`) -/

/-- One element of the persisted `agents` array: `{id, name, url, token}`. -/
structure Agent where
  id : String
  name : String
  url : String
  token : String
deriving DecidableEq, Repr

/-- One element of the persisted `hosts` array: `{id, name, mac, agentId}`
(`agentId = none` is JSON `null`). -/
structure Host where
  id : String
  name : String
  mac : String
  agentId : Option String
deriving DecidableEq, Repr

/-- The whole persisted document `{agents: [...], hosts: [...]}`. -/
structure Store where
  agents : List Agent
  hosts : List Host
deriving DecidableEq, Repr

/-- The initial document written by `initStoreIfMissing`. -/
def Store.empty : Store := ⟨[], []⟩

/-! ## API error taxonomy -/

/-- The error responses a registry handler can produce, tagged with the
message string of the JSON body. -/
inductive ApiErr where
  | validation (msg : String)
  | notFound (msg : String)
  | conflict (msg : String)
deriving DecidableEq, Repr

/-- HTTP status code of each error response. -/
def ApiErr.status : ApiErr → Nat
  | .validation _ => 400
  | .notFound _ => 404
  | .conflict _ => 409

instance {ε α : Type} [DecidableEq ε] [DecidableEq α] : DecidableEq (Except ε α) := fun x y =>
  match x, y with
  | .ok a, .ok b =>
    if h : a = b then isTrue (by rw [h]) else isFalse (by intro hh; cases hh; exact h rfl)
  | .error a, .error b =>
    if h : a = b then isTrue (by rw [h]) else isFalse (by intro hh; cases hh; exact h rfl)
  | .ok _, .error _ => isFalse (by intro hh; cases hh)
  | .error _, .ok _ => isFalse (by intro hh; cases hh)

/-- Status code of a registry operation outcome (200 on success). -/
def exceptStatus : Except ApiErr Store → Nat
  | .ok _ => 200
  | .error e => e.status

/-! ## JS coercion helpers shared by the handlers -/

/-- The `agentId` request field after
`req.body?.agentId ? String(req.body.agentId).trim() : null`:
`none` models an absent / falsy field, a truthy string is trimmed (the
trimmed result may be empty). -/
def jsAgentField : Option String → Option String
  | some s => if s = "" then none else some (jsTrim s)
  | none => none

/-- JS `agentId || null` as used when storing a host: an empty string is
replaced by `null`. -/
def jsOrNull : Option String → Option String
  | some a => if a = "" then none else some a
  | none => none

/-- The guard `agentId && !store.agents.some(a => a.id === agentId)` of
the host handlers: a truthy `agentId` that no stored agent carries. -/
def danglingAgent (st : Store) : Option String → Bool
  | some a => a ≠ "" && !(st.agents.any (fun x => x.id = a))
  | none => false

/-! ## Registry operations (controller CRUD handlers)

Each handler returns `Except ApiErr Store`: `.ok st` is the single
`writeStore` of the new document, `.error e` is an early `return` before
any write (the persisted state is unchanged).  `newId` fresh identifiers
are explicit `freshId` arguments. -/

/-- `POST /api/agents`. -/
def createAgent (st : Store) (freshId nameRaw urlRaw tokenRaw : String) : Except ApiErr Store :=
  let name := jsTrim nameRaw
  let url := jsTrim urlRaw
  let token := jsTrim tokenRaw
  if name = "" then .error (.validation "name required")
  else if !urlSchemeOk url then .error (.validation "url must start with http or https")
  else if token = "" then .error (.validation "token required")
  else .ok ⟨st.agents ++ [⟨freshId, name, url, token⟩], st.hosts⟩

/-- Replace the first element satisfying `p` (JS `Array.prototype.find`
followed by in-place mutation of the found object). -/
def updateFirst (p : α → Bool) (f : α → α) : List α → List α
  | [] => []
  | x :: xs => if p x then f x :: xs else x :: updateFirst p f xs

/-- `PUT /api/agents/:id`; `none` request fields model `undefined`
(field kept), `some s` a supplied value. -/
def updateAgent (st : Store) (id : String) (nameF urlF tokenF : Option String) : Except ApiErr Store :=
  match st.agents.find? (fun a => a.id = id) with
  | none => .error (.notFound "agent not found")
  | some agent =>
    let name := (nameF.map jsTrim).getD agent.name
    let url := (urlF.map jsTrim).getD agent.url
    let token := (tokenF.map jsTrim).getD agent.token
    if name = "" then .error (.validation "name required")
    else if !urlSchemeOk url then .error (.validation "url must start with http or https")
    else if token = "" then .error (.validation "token required")
    else .ok ⟨updateFirst (fun a => a.id = id)
        (fun a => ⟨a.id, name, url, token⟩) st.agents, st.hosts⟩

/-- `DELETE /api/agents/:id`: hosts referencing the agent are rewritten
to `agentId = null`, the agent is removed, and both changes are
persisted by the one `writeStore`; on 404 nothing is written. -/
def deleteAgent (st : Store) (id : String) : Except ApiErr Store :=
  let hosts := st.hosts.map (fun h => if h.agentId = some id then ⟨h.id, h.name, h.mac, none⟩ else h)
  let agents := st.agents.filter (fun a => !(a.id = id))
  if agents.length = st.agents.length then .error (.notFound "agent not found")
  else .ok ⟨agents, hosts⟩

/-- `POST /api/hosts`. -/
def createHost (st : Store) (freshId nameRaw macRaw : String) (agentIdRaw : Option String) :
    Except ApiErr Store :=
  let name := jsTrim nameRaw
  let mac := normalizeMac macRaw
  let agentId := jsAgentField agentIdRaw
  if name = "" then .error (.validation "name required")
  else if !isMac mac then .error (.validation "invalid mac")
  else if danglingAgent st agentId then .error (.validation "agentId not found")
  else if st.hosts.any (fun h => h.mac = mac) then .error (.conflict "mac already exists")
  else .ok ⟨st.agents, st.hosts ++ [⟨freshId, name, mac, jsOrNull agentId⟩]⟩

/-- `PUT /api/hosts/:id`; the `agentF` field is `none` when absent from
the body, `some v` when present with (possibly falsy) value `v`. -/
def updateHost (st : Store) (id : String) (nameF macF : Option String)
    (agentF : Option (Option String)) : Except ApiErr Store :=
  match st.hosts.find? (fun h => h.id = id) with
  | none => .error (.notFound "host not found")
  | some host =>
    let name := (nameF.map jsTrim).getD host.name
    let mac := (macF.map normalizeMac).getD host.mac
    let agentId := (agentF.map jsAgentField).getD host.agentId
    if name = "" then .error (.validation "name required")
    else if !isMac mac then .error (.validation "invalid mac")
    else if danglingAgent st agentId then .error (.validation "agentId not found")
    else if st.hosts.any (fun h => h.id ≠ id && h.mac = mac) then .error (.conflict "mac already exists")
    else .ok ⟨st.agents, updateFirst (fun h => h.id = id)
        (fun h => ⟨h.id, name, mac, jsOrNull agentId⟩) st.hosts⟩

/-- `DELETE /api/hosts/:id`. -/
def deleteHost (st : Store) (id : String) : Except ApiErr Store :=
  let hosts := st.hosts.filter (fun h => !(h.id = id))
  if hosts.length = st.hosts.length then .error (.notFound "host not found")
  else .ok ⟨st.agents, hosts⟩

/-! ## Mutating-operation alphabet and reachable states -/

/-- One mutating API call, with the identifier `newId` would mint for a
create carried explicitly. -/
inductive Op where
  | createAgent (freshId nameRaw urlRaw tokenRaw : String)
  | updateAgent (id : String) (nameF urlF tokenF : Option String)
  | deleteAgent (id : String)
  | createHost (freshId nameRaw macRaw : String) (agentIdRaw : Option String)
  | updateHost (id : String) (nameF macF : Option String) (agentF : Option (Option String))
  | deleteHost (id : String)
deriving DecidableEq, Repr

/-- Run one mutating handler. -/
def runOp (st : Store) : Op → Except ApiErr Store
  | .createAgent i n u t => createAgent st i n u t
  | .updateAgent i n u t => updateAgent st i n u t
  | .deleteAgent i => deleteAgent st i
  | .createHost i n m a => createHost st i n m a
  | .updateHost i n m a => updateHost st i n m a
  | .deleteHost i => deleteHost st i

/-- The persisted state after a handler ran: unchanged when the handler
failed before its `writeStore`. -/
def applyOp (st : Store) (op : Op) : Store :=
  match runOp st op with
  | .ok st1 => st1
  | .error _ => st

/-- The freshness `newId` provides in practice: a minted identifier does
not collide with a stored one of the same entity type (ids are 48 random
bits; the server relies on this and never checks). -/
def opFresh (st : Store) : Op → Bool
  | .createAgent i _ _ _ => !(st.agents.any (fun a => a.id = i))
  | .createHost i _ _ _ => !(st.hosts.any (fun h => h.id = i))
  | _ => true

/-- Persisted registry states reachable from the initial empty document
by sequential mutating API calls (with fresh minted ids). -/
inductive Reachable : Store → Prop
  | init : Reachable Store.empty
  | step (st : Store) (op : Op) (h : Reachable st) (hfresh : opFresh st op = true) :
      Reachable (applyOp st op)

/-! ## Wake request bodies: the JS override coercions

Both wake handlers run the same two lines on the request body:
the broadcast field is kept only if truthy, stringified and trimmed;
the port field is kept only if truthy and is coerced with `Number`,
and the coerced value is then itself used only if truthy (dropping `0`
and `NaN`). -/

/-- A JSON value supplied for the `port` field: a (finite, integral)
number or a string.  `Option PortVal` models the field, `none` being an
absent / `null` / other falsy field. -/
inductive PortVal where
  | num (n : Int)
  | str (s : String)
deriving DecidableEq, Repr

/-- JS truthiness of a `port` field value. -/
def jsPortTruthy : PortVal → Bool
  | .num n => n ≠ 0
  | .str s => s ≠ ""

/-- Digit-string value for the JS `Number` coercion: `some` its value
when the list is a non-empty run of decimal digits, else `none`. -/
def digitsVal (l : List Char) : Option Nat :=
  if l ≠ [] ∧ l.all (fun c => 48 ≤ c.toNat && c.toNat ≤ 57) then
    some (l.foldl (fun acc c => acc * 10 + (c.toNat - 48)) 0)
  else none

/-- JS `Number(s)` on the strings the wake handlers can meet: trimmed
empty coerces to `0`, an optionally signed decimal-digit run to its
value, anything else (modelling `NaN`) to `none`. -/
def jsStrToNumber (s : String) : Option Int :=
  match trimL s.data with
  | [] => some 0
  | '-' :: rest => (digitsVal rest).map (fun n => -(n : Int))
  | '+' :: rest => (digitsVal rest).map (fun n => (n : Int))
  | l => (digitsVal l).map (fun n => (n : Int))

/-- JS `Number(v)` on a `port` field value (`none` models `NaN`). -/
def jsToNumber : PortVal → Option Int
  | .num n => some n
  | .str s => jsStrToNumber s

/-- The handler line
`const broadcast = req.body?.broadcast ? String(req.body.broadcast).trim() : undefined`. -/
def overrideBroadcast : Option String → Option String
  | some s => if s = "" then none else some (jsTrim s)
  | none => none

/-- The guarded use `if (broadcast) options.address = broadcast`:
the address actually placed in the options / relay payload. -/
def optAddress (b : Option String) : Option String :=
  match overrideBroadcast b with
  | some t => if t = "" then none else some t
  | none => none

/-- The handler line
`const port = req.body?.port ? Number(req.body.port) : undefined`
(outer `none` = `undefined`, inner `none` = `NaN`). -/
def overridePort : Option PortVal → Option (Option Int)
  | some v => if jsPortTruthy v then some (jsToNumber v) else none
  | none => none

/-- The guarded use `if (port) options.port = port`: the UDP port
actually placed in the options / relay payload (`0` and `NaN` are
falsy numbers and are dropped). -/
def optPort (p : Option PortVal) : Option Int :=
  match overridePort p with
  | some (some n) => if n = 0 then none else some n
  | _ => none

/-- Body of a wake request (`{broadcast?, port?}`); the relay request
additionally carries a `mac`, passed separately. -/
structure WakeBody where
  broadcast : Option String
  port : Option PortVal
deriving DecidableEq, Repr

/-! ## Effects: UDP sends and relay calls -/

/-- One invocation `wol(mac, options)` of the wakeonlan sender:
`address`/`port` are the options object fields (absent = library default). -/
structure LocalSend where
  mac : String
  address : Option String
  port : Option Int
deriving DecidableEq, Repr

/-- Modelled from the spec: the wakeonlan library (not part of src)
broadcasts to `255.255.255.255` when no address option is given (§4.4). -/
def effectiveAddress (s : LocalSend) : String := s.address.getD "255.255.255.255"

/-- Modelled from the spec: the wakeonlan library (not part of src)
sends to UDP port `9` when no port option is given (§4.4). -/
def effectivePort (s : LocalSend) : Int := s.port.getD 9

/-- One outbound `postJson` to an agent: target URL, the value of the
`X-Agent-Token` header, and the JSON payload `{mac, broadcast?, port?}`. -/
structure RelayCall where
  url : String
  tokenHeader : String
  mac : String
  broadcast : Option String
  port : Option Int
deriving DecidableEq, Repr

/-! ## Agent mode: `POST /wake` -/

/-- Response of the agent-mode `POST /wake` handler. -/
inductive AgentResp where
  | unauthorized
  | invalidMac
  | sent (mac : String) (broadcast : Option String) (port : Option Int)
  | failed (msg : String)
deriving DecidableEq, Repr

/-- HTTP status of an agent-mode wake response. -/
def AgentResp.status : AgentResp → Nat
  | .unauthorized => 401
  | .invalidMac => 400
  | .sent _ _ _ => 200
  | .failed _ => 500

/-- The agent-mode `POST /wake` handler.  `header` is the raw
`X-Agent-Token` header (the code reads it as `req.get(..) || ''`),
`macRaw` the body `mac` coerced as `req.body?.mac || ''`, and
`wolOutcome` the result of the awaited `wol(mac, options)` call; the
second component lists the UDP sends performed. -/
def agentWake (cfgToken : String) (header : Option String) (macRaw : String)
    (body : WakeBody) (wolOutcome : Except String Unit) : AgentResp × List LocalSend :=
  let token := header.getD ""
  if token ≠ cfgToken then (.unauthorized, [])
  else
    let mac := normalizeMac macRaw
    if !isMac mac then (.invalidMac, [])
    else
      let addr := optAddress body.broadcast
      let prt := optPort body.port
      match wolOutcome with
      | .ok _ => (.sent mac addr prt, [⟨mac, addr, prt⟩])
      | .error e => (.failed e, [⟨mac, addr, prt⟩])

/-! ## Controller mode: read state, health probe, wake dispatch -/

/-- Sanitized agent view returned by `GET /api/state`: only
`{id, name, url}` — the record has no token field at all. -/
structure AgentView where
  id : String
  name : String
  url : String
deriving DecidableEq, Repr

/-- Host view returned by `GET /api/state`. -/
structure HostView where
  id : String
  name : String
  mac : String
  agentId : Option String
deriving DecidableEq, Repr

/-- Body of the `GET /api/state` response. -/
structure StateView where
  agents : List AgentView
  hosts : List HostView
deriving DecidableEq, Repr

/-- The `GET /api/state` handler. -/
def getState (st : Store) : StateView :=
  ⟨st.agents.map (fun a => ⟨a.id, a.name, a.url⟩),
   st.hosts.map (fun h => ⟨h.id, h.name, h.mac, jsOrNull h.agentId⟩)⟩

/-- Response of `GET /api/agents/:id/health`. -/
inductive HealthResp where
  | agentNotFound
  | reachable (latencyMs : Nat) (response : String)
  | unreachable (error : String)
deriving DecidableEq, Repr

/-- HTTP status of a health response: the 404 is the only non-200; both
reachability outcomes are ordinary 200 JSON bodies with `ok: true`. -/
def HealthResp.status : HealthResp → Nat
  | .agentNotFound => 404
  | .reachable _ _ => 200
  | .unreachable _ => 200

/-- The `GET /api/agents/:id/health` handler.  `probe` is the outcome of
the awaited `fetchJson` probe of the agent's `/health` endpoint
(latency in ms and parsed body on success, thrown message on any
transport or HTTP failure); the `catch` around the handler converts a
probe failure into the structured unreachable body. -/
def checkAgentHealth (st : Store) (id : String) (probe : Except String (Nat × String)) :
    HealthResp :=
  match st.agents.find? (fun a => a.id = id) with
  | none => .agentNotFound
  | some _ =>
    match probe with
    | .ok r => .reachable r.1 r.2
    | .error e => .unreachable e

/-- Response of the controller `POST /api/wake/:hostId` handler. -/
inductive WakeResp where
  | hostNotFound
  | integrityError
  | viaAgent (agentId : String) (result : String)
  | viaLocal (mac : String) (broadcast : Option String) (port : Option Int)
  | wakeFailed (msg : String)
deriving DecidableEq, Repr

/-- HTTP status of a controller wake response. -/
def WakeResp.status : WakeResp → Nat
  | .hostNotFound => 404
  | .integrityError => 500
  | .viaAgent _ _ => 200
  | .viaLocal _ _ _ => 200
  | .wakeFailed _ => 500

/-- The controller `POST /api/wake/:hostId` handler.  `relayOutcome` is
the outcome of the awaited `postJson` to the agent (its parsed JSON
reply, opaque here, on success), `wolOutcome` of the local `wol` call;
the effect lists record every relay call and every local UDP send the
handler performed. -/
def wakeHandler (st : Store) (hostId : String) (body : WakeBody)
    (relayOutcome : Except String String) (wolOutcome : Except String Unit) :
    WakeResp × List RelayCall × List LocalSend :=
  match st.hosts.find? (fun h => h.id = hostId) with
  | none => (.hostNotFound, [], [])
  | some host =>
    let ob := optAddress body.broadcast
    let op := optPort body.port
    let goLocal : WakeResp × List RelayCall × List LocalSend :=
      match wolOutcome with
      | .ok _ => (.viaLocal host.mac ob op, [], [⟨host.mac, ob, op⟩])
      | .error e => (.wakeFailed e, [], [⟨host.mac, ob, op⟩])
    match host.agentId with
    | none => goLocal
    | some aid =>
      if aid = "" then goLocal
      else
        match st.agents.find? (fun a => a.id = aid) with
        | none => (.integrityError, [], [])
        | some agent =>
          let call : RelayCall := ⟨stripTrailingSlashes agent.url ++ "/wake", agent.token,
            host.mac, ob, op⟩
          match relayOutcome with
          | .ok r => (.viaAgent agent.id r, [call], [])
          | .error e => (.wakeFailed e, [call], [])

/-! ## Derived definitions used by the theorems -/

/-- The dash-to-colon and lower-casing steps composed, as acting on one
character of a `normalizeMac` input. -/
def normChar (c : Char) : Char := toLowerJs (sepToColon c)

/-- Two strings differ only in separator style or letter case: same
length, and position by position either both characters are MAC
separators or they are the same letter up to case. -/
def sameUpToSepCase (s t : String) : Bool :=
  (s.data.length = t.data.length) &&
  (s.data.zip t.data).all (fun cd =>
    (isSepChar cd.1 && isSepChar cd.2) || toLowerJs cd.1 = toLowerJs cd.2)

/-- Canonical MAC form: passes the MAC syntax check and contains no dash
and no upper-case letter. -/
def isCanonicalMac (s : String) : Bool :=
  isMac s && s.data.all (fun c => !decide (c = '-') && !decide (65 ≤ c.toNat ∧ c.toNat ≤ 90))

/-- Referential integrity: every non-null host `agentId` names a stored
agent (spec invariant 1). -/
def HostsRefOk (st : Store) : Prop :=
  ∀ h ∈ st.hosts, ∀ a, h.agentId = some a → ∃ x ∈ st.agents, x.id = a

/-- macs of stored hosts are pairwise distinct after canonicalization
(spec invariant 2). -/
def MacsUnique (st : Store) : Prop :=
  st.hosts.Pairwise (fun g h => normalizeMac g.mac ≠ normalizeMac h.mac)

/-- Auxiliary invariant carried through the induction: host ids are
pairwise distinct, every stored mac is already in canonical form, and
stored macs are pairwise distinct as strings. -/
def StoreWF (st : Store) : Prop :=
  HostsRefOk st
  ∧ st.hosts.Pairwise (fun g h => g.id ≠ h.id)
  ∧ (∀ h ∈ st.hosts, normalizeMac h.mac = h.mac)
  ∧ st.hosts.Pairwise (fun g h => g.mac ≠ h.mac)

/-- A store with one agent and two hosts bound to it, used to
instantiate the cascade-deletion theorem. -/
def stCascade : Store :=
  ⟨[⟨"agent_1", "vlan2", "http://10.0.2.5:3001", "secret123"⟩],
   [⟨"host_1", "nas", "aa:bb:cc:dd:ee:ff", some "agent_1"⟩,
    ⟨"host_2", "pc", "11:22:33:44:55:66", some "agent_1"⟩,
    ⟨"host_3", "tv", "22:33:44:55:66:77", none⟩]⟩

/-- A store holding one host, used to exhibit the masked-conflict
counterexample for host creation. -/
def stOneHost : Store :=
  ⟨[], [⟨"host_1", "nas", "aa:bb:cc:dd:ee:ff", none⟩]⟩

/-- A concrete reachable state: one registered agent, then one host
bound to it. -/
def stWitness : Store :=
  applyOp (applyOp Store.empty (.createAgent "agent_1" "vlan2" "http://10.0.2.5:3001" "secret123"))
    (.createHost "host_1" "nas" "AA-BB-CC-DD-EE-FF" (some "agent_1"))

/-! ## Lemmas about `normalizeMac` and `isMac` -/

theorem toLowerJs_toNat_of_upper {c : Char} (h : 65 ≤ c.toNat ∧ c.toNat ≤ 90) :
    (toLowerJs c).toNat = c.toNat + 32 := by
  have hv : (c.toNat + 32).isValidChar := by
    left
    omega
  unfold toLowerJs
  rw [if_pos h]
  simp [Char.ofNat, hv]
  rfl

theorem toLowerJs_of_not_upper {c : Char} (h : ¬(65 ≤ c.toNat ∧ c.toNat ≤ 90)) :
    toLowerJs c = c := by
  unfold toLowerJs
  rw [if_neg h]

theorem toLowerJs_idem (c : Char) : toLowerJs (toLowerJs c) = toLowerJs c := by
  by_cases h : 65 ≤ c.toNat ∧ c.toNat ≤ 90
  · have h1 := toLowerJs_toNat_of_upper h
    apply toLowerJs_of_not_upper
    omega
  · rw [toLowerJs_of_not_upper h, toLowerJs_of_not_upper h]

theorem toLowerJs_eq_dash_iff {c : Char} : toLowerJs c = '-' ↔ c = '-' := by
  constructor
  · intro h
    by_cases hu : 65 ≤ c.toNat ∧ c.toNat ≤ 90
    · have h1 := toLowerJs_toNat_of_upper hu
      rw [h] at h1
      simp at h1
      omega
    · rwa [toLowerJs_of_not_upper hu] at h
  · intro h
    subst h
    decide

theorem sepToColon_ne_dash (c : Char) : sepToColon c ≠ '-' := by
  unfold sepToColon
  split
  · decide
  · assumption

theorem normChar_ne_dash (c : Char) : normChar c ≠ '-' := by
  unfold normChar
  intro h
  exact sepToColon_ne_dash c (toLowerJs_eq_dash_iff.mp h)

theorem normChar_idem (c : Char) : normChar (normChar c) = normChar c := by
  have h1 : sepToColon (normChar c) = normChar c := by
    unfold sepToColon
    rw [if_neg (normChar_ne_dash c)]
  show toLowerJs (sepToColon (normChar c)) = normChar c
  rw [h1]
  exact toLowerJs_idem (sepToColon c)

theorem isSep_normChar {c : Char} (h : isSepChar c = true) : normChar c = ':' := by
  simp only [isSepChar, Bool.or_eq_true, decide_eq_true_eq] at h
  rcases h with h | h <;> subst h <;> decide

theorem char_eq_of_toNat_eq {c d : Char} (h : c.toNat = d.toNat) : c = d := by
  have h1 := Char.ofNat_toNat c
  rw [h, Char.ofNat_toNat d] at h1
  exact h1.symm

theorem isHex_normChar {c : Char} (h : isHexDigit c = true) : isHexDigit (normChar c) = true := by
  simp only [isHexDigit, Bool.or_eq_true, Bool.and_eq_true, decide_eq_true_eq] at h
  have hd : c ≠ '-' := by
    intro hc
    subst hc
    revert h
    decide
  have hs : sepToColon c = c := by
    unfold sepToColon
    rw [if_neg hd]
  unfold normChar
  rw [hs]
  by_cases hu : 65 ≤ c.toNat ∧ c.toNat ≤ 90
  · have h1 := toLowerJs_toNat_of_upper hu
    simp only [isHexDigit, Bool.or_eq_true, Bool.and_eq_true, decide_eq_true_eq]
    omega
  · rw [toLowerJs_of_not_upper hu]
    simp only [isHexDigit, Bool.or_eq_true, Bool.and_eq_true, decide_eq_true_eq]
    omega

theorem normChar_eq_of_equiv {c d : Char}
    (h : (isSepChar c && isSepChar d) || toLowerJs c = toLowerJs d) :
    normChar c = normChar d := by
  simp only [Bool.or_eq_true, Bool.and_eq_true, decide_eq_true_eq] at h
  rcases h with ⟨hc, hd⟩ | h
  · rw [isSep_normChar hc, isSep_normChar hd]
  · by_cases hc : c = '-'
    · subst hc
      have hd : d = '-' := by
        apply toLowerJs_eq_dash_iff.mp
        rw [← h]
        decide
      subst hd
      rfl
    · by_cases hd : d = '-'
      · subst hd
        have : toLowerJs c = '-' := by
          rw [h]
          decide
        exact absurd (toLowerJs_eq_dash_iff.mp this) hc
      · unfold normChar sepToColon
        rw [if_neg hc, if_neg hd]
        exact h

theorem isHex_not_ws {c : Char} (h : isHexDigit c = true) : isWsChar c = false := by
  simp only [isHexDigit, Bool.or_eq_true, Bool.and_eq_true, decide_eq_true_eq] at h
  simp only [isWsChar, Bool.or_eq_false_iff, decide_eq_false_iff_not]
  omega

theorem isSep_not_ws {c : Char} (h : isSepChar c = true) : isWsChar c = false := by
  simp only [isSepChar, Bool.or_eq_true, decide_eq_true_eq] at h
  rcases h with h | h <;> subst h <;> decide

theorem macGroups_chars : ∀ (n : Nat) (l : List Char), macGroups n l = true →
    ∀ c ∈ l, isHexDigit c = true ∨ isSepChar c = true
  | 0, [], h => by simp [macGroups] at h
  | 0, [_], h => by simp [macGroups] at h
  | 0, [c0, c1], h => by
    simp [macGroups] at h
    intro c hc
    simp at hc
    rcases hc with rfl | rfl
    · exact Or.inl h.1
    · exact Or.inl h.2
  | 0, _ :: _ :: _ :: _, h => by simp [macGroups] at h
  | n + 1, [], h => by simp [macGroups] at h
  | n + 1, [_], h => by simp [macGroups] at h
  | n + 1, [_, _], h => by simp [macGroups] at h
  | n + 1, c0 :: c1 :: p :: rest, h => by
    simp [macGroups] at h
    obtain ⟨⟨⟨h1, h2⟩, h3⟩, h4⟩ := h
    intro c hc
    simp at hc
    rcases hc with rfl | rfl | rfl | hc
    · exact Or.inl h1
    · exact Or.inl h2
    · exact Or.inr h3
    · exact macGroups_chars n rest h4 c hc

theorem macGroups_not_ws {n : Nat} {l : List Char} (h : macGroups n l = true) :
    ∀ c ∈ l, isWsChar c = false := by
  intro c hc
  rcases macGroups_chars n l h c hc with h1 | h1
  · exact isHex_not_ws h1
  · exact isSep_not_ws h1

theorem dropWhile_eq_self_of_none {p : Char → Bool} {l : List Char}
    (h : ∀ c ∈ l, p c = false) : l.dropWhile p = l := by
  induction l with
  | nil => rfl
  | cons a l ih =>
    rw [List.dropWhile_cons]
    simp only [h a (List.mem_cons_self a l)]
    rfl

theorem trimL_eq_self {l : List Char} (h : ∀ c ∈ l, isWsChar c = false) : trimL l = l := by
  unfold trimL
  rw [dropWhile_eq_self_of_none h]
  rw [dropWhile_eq_self_of_none (by intro c hc; exact h c (List.mem_reverse.mp hc))]
  exact List.reverse_reverse l

theorem normalizeMacL_eq_map {l : List Char} (h : ∀ c ∈ l, isWsChar c = false) :
    normalizeMacL l = l.map normChar := by
  unfold normalizeMacL
  rw [trimL_eq_self h, List.map_map]
  rfl

theorem macGroups_map_norm : ∀ (n : Nat) (l : List Char), macGroups n l = true →
    macGroups n (l.map normChar) = true
  | 0, [], h => by simp [macGroups] at h
  | 0, [_], h => by simp [macGroups] at h
  | 0, [c0, c1], h => by
    simp [macGroups] at h ⊢
    exact ⟨isHex_normChar h.1, isHex_normChar h.2⟩
  | 0, _ :: _ :: _ :: _, h => by simp [macGroups] at h
  | n + 1, [], h => by simp [macGroups] at h
  | n + 1, [_], h => by simp [macGroups] at h
  | n + 1, [_, _], h => by simp [macGroups] at h
  | n + 1, c0 :: c1 :: p :: rest, h => by
    simp [macGroups] at h ⊢
    obtain ⟨⟨⟨h1, h2⟩, h3⟩, h4⟩ := h
    refine ⟨⟨⟨isHex_normChar h1, isHex_normChar h2⟩, ?_⟩, macGroups_map_norm n rest h4⟩
    rw [isSep_normChar h3]
    decide

theorem isMac_normalizeMac {s : String} (h : isMac s = true) :
    isMac (normalizeMac s) = true := by
  unfold isMac at *
  unfold normalizeMac
  show macGroups 5 (normalizeMacL s.data) = true
  rw [normalizeMacL_eq_map (macGroups_not_ws h)]
  exact macGroups_map_norm 5 s.data h

theorem normalizeMac_idem_of_mac {s : String} (h : isMac s = true) :
    normalizeMac (normalizeMac s) = normalizeMac s := by
  unfold isMac at h
  unfold normalizeMac
  have hd : (⟨normalizeMacL s.data⟩ : String).data = normalizeMacL s.data := rfl
  rw [hd]
  have h1 : normalizeMacL s.data = s.data.map normChar :=
    normalizeMacL_eq_map (macGroups_not_ws h)
  have h2 : macGroups 5 (s.data.map normChar) = true := macGroups_map_norm 5 s.data h
  rw [h1, normalizeMacL_eq_map (macGroups_not_ws h2), List.map_map]
  congr 1
  apply List.map_congr_left
  intro c _
  exact normChar_idem c

theorem map_normChar_eq_of_equiv : ∀ (cs ds : List Char), cs.length = ds.length →
    ((cs.zip ds).all (fun cd =>
      (isSepChar cd.1 && isSepChar cd.2) || toLowerJs cd.1 = toLowerJs cd.2)) = true →
    cs.map normChar = ds.map normChar
  | [], [], _, _ => rfl
  | [], _ :: _, h, _ => by simp at h
  | _ :: _, [], h, _ => by simp at h
  | c :: cs, d :: ds, h, hall => by
    simp only [List.zip_cons_cons, List.all_cons, Bool.and_eq_true] at hall
    simp only [List.map_cons]
    rw [normChar_eq_of_equiv hall.1,
      map_normChar_eq_of_equiv cs ds (by simpa using h) hall.2]

theorem normChar_not_upper (c : Char) :
    ¬(65 ≤ (normChar c).toNat ∧ (normChar c).toNat ≤ 90) := by
  unfold normChar
  by_cases hu : 65 ≤ (sepToColon c).toNat ∧ (sepToColon c).toNat ≤ 90
  · have h1 := toLowerJs_toNat_of_upper hu
    omega
  · rw [toLowerJs_of_not_upper hu]
    exact hu

/-- C9: for all syntactically valid MAC strings that differ only in
separator style or letter case, `normalizeMac` produces the same
canonical (lower-case, colon-separated) value, and on valid MAC strings
it is idempotent. -/
theorem normalizeMac_canonical :
    (∀ s t : String, isMac s = true → isMac t = true → sameUpToSepCase s t = true →
      normalizeMac s = normalizeMac t)
    ∧ (∀ s : String, isMac s = true → normalizeMac (normalizeMac s) = normalizeMac s)
    ∧ (∀ s : String, isMac s = true → isCanonicalMac (normalizeMac s) = true) := by
  refine ⟨?_, fun s hs => normalizeMac_idem_of_mac hs, ?_⟩
  · intro s t hs ht hst
    simp only [sameUpToSepCase, Bool.and_eq_true, decide_eq_true_eq] at hst
    show (⟨normalizeMacL s.data⟩ : String) = ⟨normalizeMacL t.data⟩
    rw [normalizeMacL_eq_map (macGroups_not_ws hs),
      normalizeMacL_eq_map (macGroups_not_ws ht),
      map_normChar_eq_of_equiv s.data t.data hst.1 hst.2]
  · intro s hs
    simp only [isCanonicalMac, Bool.and_eq_true]
    refine ⟨isMac_normalizeMac hs, ?_⟩
    have hd : (normalizeMac s).data = s.data.map normChar := by
      show (normalizeMacL s.data) = _
      rw [normalizeMacL_eq_map (macGroups_not_ws hs)]
    rw [List.all_eq_true]
    intro c hc
    rw [hd] at hc
    obtain ⟨c0, _, rfl⟩ := List.mem_map.mp hc
    simp only [Bool.and_eq_true, Bool.not_eq_true', decide_eq_false_iff_not]
    exact ⟨normChar_ne_dash c0, normChar_not_upper c0⟩

/-- Witness for C9 at the spec's own example pair. -/
theorem normalizeMac_canonical_check :
    normalizeMac "AA-BB-CC-DD-EE-FF" = normalizeMac "aa:bb:cc:dd:ee:ff"
    ∧ normalizeMac (normalizeMac "AA-BB-CC-DD-EE-FF") = normalizeMac "AA-BB-CC-DD-EE-FF"
    ∧ isCanonicalMac (normalizeMac "AA-BB-CC-DD-EE-FF") = true :=
  ⟨normalizeMac_canonical.1 _ _ (by decide) (by decide) (by decide),
   normalizeMac_canonical.2.1 _ (by decide),
   normalizeMac_canonical.2.2 _ (by decide)⟩

/-! ## C5: relay authentication -/

/-- C5: the relay `POST /wake` answers 401 exactly when the presented
`X-Agent-Token` header (empty when missing) is not string-equal to the
configured secret; the comparison is of the whole token. -/
theorem relay_auth_exact (cfgToken : String) (header : Option String) (macRaw : String)
    (body : WakeBody) (wolOutcome : Except String Unit) :
    (agentWake cfgToken header macRaw body wolOutcome).1 = .unauthorized ↔
      header.getD "" ≠ cfgToken := by
  constructor
  · intro hres heq
    unfold agentWake at hres
    rw [if_neg (not_not_intro heq)] at hres
    rcases wolOutcome with w | w <;>
      by_cases hm : isMac (normalizeMac macRaw) = true <;>
      simp [hm] at hres
  · intro hne
    unfold agentWake
    rw [if_pos hne]

/-- Witness for C5: a strict prefix of the configured token is rejected
with 401, the full token is not. -/
theorem relay_auth_exact_check :
    (agentWake "secret123" (some "secret") "aa:bb:cc:dd:ee:ff" ⟨none, none⟩ (.ok ())).1 =
      .unauthorized
    ∧ (agentWake "secret123" (some "secret123") "aa:bb:cc:dd:ee:ff" ⟨none, none⟩ (.ok ())).1 ≠
      .unauthorized :=
  ⟨(relay_auth_exact "secret123" (some "secret") "aa:bb:cc:dd:ee:ff" ⟨none, none⟩ (.ok ())).mpr
      (by decide),
   fun h =>
    (relay_auth_exact "secret123" (some "secret123") "aa:bb:cc:dd:ee:ff" ⟨none, none⟩
      (.ok ())).mp h (by decide)⟩

/-! ## C7: health probe never fails loudly -/

/-- C7: for a stored agent id, the health check returns a 200 structured
result whatever the probe outcome: the probe result on success, the
structured unreachable body on transport failure. -/
theorem health_never_errors (st : Store) (id : String) (probe : Except String (Nat × String))
    (h : ∃ a ∈ st.agents, a.id = id) :
    (checkAgentHealth st id probe).status = 200
    ∧ (∀ ms d, probe = .ok (ms, d) → checkAgentHealth st id probe = .reachable ms d)
    ∧ (∀ e, probe = .error e → checkAgentHealth st id probe = .unreachable e) := by
  have hsome : (st.agents.find? (fun a => a.id = id)).isSome := by
    rw [List.find?_isSome]
    obtain ⟨a, ha, hid⟩ := h
    exact ⟨a, ha, by simp [hid]⟩
  obtain ⟨a, hfind⟩ := Option.isSome_iff_exists.mp hsome
  unfold checkAgentHealth
  rw [hfind]
  rcases probe with e | r
  · refine ⟨rfl, ?_, ?_⟩
    · intro ms d hpr
      cases hpr
    · intro e1 hpr
      cases hpr
      rfl
  · refine ⟨rfl, ?_, ?_⟩
    · intro ms d hpr
      cases hpr
      rfl
    · intro e1 hpr
      cases hpr

/-- Witness for C7 at a concrete store, for both probe outcomes. -/
theorem health_never_errors_check :
    (checkAgentHealth stCascade "agent_1" (.error "fetch failed")).status = 200
    ∧ checkAgentHealth stCascade "agent_1" (.error "fetch failed") = .unreachable "fetch failed" :=
  ⟨(health_never_errors stCascade "agent_1" (.error "fetch failed")
      ⟨⟨"agent_1", "vlan2", "http://10.0.2.5:3001", "secret123"⟩, by decide, rfl⟩).1,
   (health_never_errors stCascade "agent_1" (.error "fetch failed")
      ⟨⟨"agent_1", "vlan2", "http://10.0.2.5:3001", "secret123"⟩, by decide, rfl⟩).2.2
      "fetch failed" rfl⟩

/-! ## C8: tokens never leave through the read path -/

theorem map_agentView_eq_of_forall₂ : ∀ (l l' : List Agent),
    List.Forall₂ (fun a b => a.id = b.id ∧ a.name = b.name ∧ a.url = b.url) l l' →
    l.map (fun a => (⟨a.id, a.name, a.url⟩ : AgentView)) =
      l'.map (fun a => ⟨a.id, a.name, a.url⟩)
  | _, _, .nil => rfl
  | a :: l, b :: l', .cons hab h => by
    simp only [List.map_cons, map_agentView_eq_of_forall₂ l l' h, hab.1, hab.2.1, hab.2.2]

/-- C8: `GET /api/state` exposes only `{id, name, url}` for each agent,
and its output is identical on any two stores that differ only in agent
token values. -/
theorem state_token_noninterference (s s' : Store)
    (hh : s.hosts = s'.hosts)
    (ha : List.Forall₂ (fun (a b : Agent) => a.id = b.id ∧ a.name = b.name ∧ a.url = b.url)
      s.agents s'.agents) :
    getState s = getState s'
    ∧ (getState s).agents = s.agents.map (fun a => ⟨a.id, a.name, a.url⟩) := by
  refine ⟨?_, rfl⟩
  unfold getState
  rw [hh, map_agentView_eq_of_forall₂ s.agents s'.agents ha]

/-- Witness for C8: two stores that differ only in the stored token give
byte-identical state responses. -/
theorem state_token_noninterference_check :
    getState ⟨[⟨"agent_1", "vlan2", "http://10.0.2.5:3001", "tokenA"⟩], []⟩ =
    getState ⟨[⟨"agent_1", "vlan2", "http://10.0.2.5:3001", "tokenB"⟩], []⟩ :=
  (state_token_noninterference
    ⟨[⟨"agent_1", "vlan2", "http://10.0.2.5:3001", "tokenA"⟩], []⟩
    ⟨[⟨"agent_1", "vlan2", "http://10.0.2.5:3001", "tokenB"⟩], []⟩
    rfl (.cons ⟨rfl, rfl, rfl⟩ .nil)).1

/-! ## C1: wake dispatch routing -/

/-- C1: resolving a stored host, the controller wake either transmits
locally (agentId null: no relay call, one local send of the host's mac
with the overrides, result `via = local`) or relays (agentId naming a
stored agent: exactly one relay call to the agent's URL with its token
and the host's stored mac, no local send, result `via = agent` carrying
the agent id and the relay's reply). -/
theorem wake_dispatch_routing (st : Store) (hostId : String) (host : Host) (body : WakeBody)
    (relayOutcome : Except String String) (wolOutcome : Except String Unit)
    (hfind : st.hosts.find? (fun h => h.id = hostId) = some host) :
    (host.agentId = none →
      (wakeHandler st hostId body relayOutcome wolOutcome).2.1 = []
      ∧ (wakeHandler st hostId body relayOutcome wolOutcome).2.2 =
          [⟨host.mac, optAddress body.broadcast, optPort body.port⟩]
      ∧ (wolOutcome = .ok () →
          (wakeHandler st hostId body relayOutcome wolOutcome).1 =
            .viaLocal host.mac (optAddress body.broadcast) (optPort body.port)))
    ∧ (∀ aid agent, host.agentId = some aid → aid ≠ "" →
        st.agents.find? (fun a => a.id = aid) = some agent →
        (wakeHandler st hostId body relayOutcome wolOutcome).2.1 =
          [⟨stripTrailingSlashes agent.url ++ "/wake", agent.token, host.mac,
            optAddress body.broadcast, optPort body.port⟩]
        ∧ (wakeHandler st hostId body relayOutcome wolOutcome).2.2 = []
        ∧ (∀ r, relayOutcome = .ok r →
            (wakeHandler st hostId body relayOutcome wolOutcome).1 = .viaAgent agent.id r)) := by
  constructor
  · intro hnone
    unfold wakeHandler
    rw [hfind]
    simp only [hnone]
    rcases wolOutcome with e | u
    · exact ⟨rfl, rfl, by intro hw; cases hw⟩
    · exact ⟨rfl, rfl, by intro hw; rfl⟩
  · intro aid agent haid hne hfa
    unfold wakeHandler
    rw [hfind]
    simp only [haid]
    rw [if_neg hne, hfa]
    rcases relayOutcome with e | r0
    · exact ⟨rfl, rfl, by intro r hr; cases hr⟩
    · exact ⟨rfl, rfl, by intro r hr; cases hr; rfl⟩

/-- Witness for C1 on a two-host store: one host bound to an agent, one
local. -/
theorem wake_dispatch_routing_check :
    wakeHandler stCascade "host_3" ⟨none, none⟩ (.ok "ignored") (.ok ()) =
      (.viaLocal "22:33:44:55:66:77" none none, [], [⟨"22:33:44:55:66:77", none, none⟩])
    ∧ (wakeHandler stCascade "host_1" ⟨none, none⟩ (.ok "relayReply") (.ok ())).2.1 =
      [⟨"http://10.0.2.5:3001/wake", "secret123", "aa:bb:cc:dd:ee:ff", none, none⟩]
    ∧ (wakeHandler stCascade "host_1" ⟨none, none⟩ (.ok "relayReply") (.ok ())).1 =
      .viaAgent "agent_1" "relayReply" := by
  have h3 := wake_dispatch_routing stCascade "host_3"
    ⟨"host_3", "tv", "22:33:44:55:66:77", none⟩ ⟨none, none⟩ (.ok "ignored") (.ok ())
    (by decide)
  have h1 := wake_dispatch_routing stCascade "host_1"
    ⟨"host_1", "nas", "aa:bb:cc:dd:ee:ff", some "agent_1"⟩ ⟨none, none⟩ (.ok "relayReply")
    (.ok ()) (by decide)
  obtain ⟨hc1, hc2, hc3⟩ := h1.2 "agent_1"
    ⟨"agent_1", "vlan2", "http://10.0.2.5:3001", "secret123"⟩ rfl (by decide) (by decide)
  obtain ⟨hl1, hl2, hl3⟩ := h3.1 rfl
  exact ⟨Prod.ext (hl3 rfl) (Prod.ext hl1 hl2), hc1, hc3 "relayReply" rfl⟩

/-! ## C10: falsy overrides are silently dropped -/

theorem optAddress_none {b : Option String} (hb : ∀ s, b = some s → jsTrim s = "") :
    optAddress b = none := by
  rcases b with _ | s
  · rfl
  · have ht := hb s rfl
    by_cases hs : s = ""
    · simp [optAddress, overrideBroadcast, hs]
    · simp [optAddress, overrideBroadcast, hs, ht]

theorem optPort_none {p : Option PortVal}
    (hp : ∀ v, p = some v →
      jsPortTruthy v = false ∨ jsToNumber v = none ∨ jsToNumber v = some 0) :
    optPort p = none := by
  rcases p with _ | v
  · rfl
  · rcases hp v rfl with h | h | h
    · simp [optPort, overridePort, h]
    · by_cases ht : jsPortTruthy v = true
      · simp [optPort, overridePort, ht, h]
      · simp [optPort, overridePort, ht]
    · by_cases ht : jsPortTruthy v = true
      · simp [optPort, overridePort, ht, h]
      · simp [optPort, overridePort, ht]

/-- C10: a falsy port value, a port value coercing to NaN or 0, and an
empty or whitespace-only broadcast string are all treated as absent at
both wake interfaces: the options carry neither field, the wake
succeeds with the component defaults, and no validation error is
raised. -/
theorem falsy_overrides_ignored (b : Option String) (p : Option PortVal)
    (hb : ∀ s, b = some s → jsTrim s = "")
    (hp : ∀ v, p = some v →
      jsPortTruthy v = false ∨ jsToNumber v = none ∨ jsToNumber v = some 0) :
    optAddress b = none ∧ optPort p = none
    ∧ (∀ (cfgToken : String) (header : Option String) (macRaw : String),
        header.getD "" = cfgToken → isMac (normalizeMac macRaw) = true →
        agentWake cfgToken header macRaw ⟨b, p⟩ (.ok ()) =
          (.sent (normalizeMac macRaw) none none, [⟨normalizeMac macRaw, none, none⟩]))
    ∧ (∀ (st : Store) (hostId : String) (host : Host) (r : Except String String),
        st.hosts.find? (fun h => h.id = hostId) = some host → host.agentId = none →
        wakeHandler st hostId ⟨b, p⟩ r (.ok ()) =
          (.viaLocal host.mac none none, [], [⟨host.mac, none, none⟩]))
    ∧ (∀ m, effectiveAddress ⟨m, none, none⟩ = "255.255.255.255"
        ∧ effectivePort ⟨m, none, none⟩ = 9) := by
  have ha := optAddress_none hb
  have hq := optPort_none hp
  refine ⟨ha, hq, ?_, ?_, fun m => ⟨rfl, rfl⟩⟩
  · intro cfgToken header macRaw hauth hmac
    unfold agentWake
    rw [if_neg (not_not_intro hauth)]
    simp only [hmac, Bool.not_true]
    show ((if false = true then _ else _ : AgentResp × List LocalSend)) = _
    rw [if_neg (by simp)]
    show ((.sent (normalizeMac macRaw) (optAddress b) (optPort p),
      [⟨normalizeMac macRaw, optAddress b, optPort p⟩]) : AgentResp × List LocalSend) = _
    rw [ha, hq]
  · intro st hostId host r hfind hnone
    unfold wakeHandler
    rw [hfind]
    simp only [hnone]
    show ((.viaLocal host.mac (optAddress b) (optPort p), [],
      [⟨host.mac, optAddress b, optPort p⟩]) : WakeResp × List RelayCall × List LocalSend) = _
    rw [ha, hq]

/-- Witness for C10: port 0, a non-numeric port string, and a
whitespace-only broadcast are all dropped at the relay interface. -/
theorem falsy_overrides_ignored_check :
    agentWake "t" (some "t") "aa:bb:cc:dd:ee:ff" ⟨some "   ", some (.num 0)⟩ (.ok ()) =
      (.sent "aa:bb:cc:dd:ee:ff" none none, [⟨"aa:bb:cc:dd:ee:ff", none, none⟩])
    ∧ optPort (some (.str "abc")) = none :=
  ⟨(falsy_overrides_ignored (some "   ") (some (.num 0))
      (by intro s hs; cases hs; decide)
      (by intro v hv; cases hv; exact Or.inl (by decide))).2.2.1
      "t" (some "t") "aa:bb:cc:dd:ee:ff" rfl (by decide),
   (falsy_overrides_ignored none (some (.str "abc"))
      (by intro s hs; cases hs)
      (by intro v hv; cases hv; exact Or.inr (Or.inl (by decide)))).2.1⟩

/-! ## C6: what the relay response reports -/

/-- C6 counterexample: with both overrides omitted the transmission uses
the library defaults (destination 255.255.255.255, UDP port 9), yet the
success response reports `broadcast: null, port: null` — not the
defaults that were actually used. -/
theorem relay_response_defaults_not_reported :
    agentWake "t" (some "t") "aa:bb:cc:dd:ee:ff" ⟨none, none⟩ (.ok ()) =
      (.sent "aa:bb:cc:dd:ee:ff" none none, [⟨"aa:bb:cc:dd:ee:ff", none, none⟩])
    ∧ effectiveAddress ⟨"aa:bb:cc:dd:ee:ff", none, none⟩ = "255.255.255.255"
    ∧ effectivePort ⟨"aa:bb:cc:dd:ee:ff", none, none⟩ = 9
    ∧ AgentResp.sent "aa:bb:cc:dd:ee:ff" none none ≠
        AgentResp.sent "aa:bb:cc:dd:ee:ff" (some "255.255.255.255") (some 9) := by
  refine ⟨by decide, rfl, rfl, by decide⟩

/-- C6 (amended): an authenticated relay wake with a valid mac responds
with the normalized mac and exactly the override values placed in the
sender options — the override when one was supplied, JSON null when the
field was omitted or falsy, in which case the transmission itself used
the component defaults 255.255.255.255 and port 9. -/
theorem relay_response_reports_overrides (cfgToken : String) (header : Option String)
    (macRaw : String) (body : WakeBody)
    (hauth : header.getD "" = cfgToken) (hmac : isMac (normalizeMac macRaw) = true) :
    agentWake cfgToken header macRaw body (.ok ()) =
      (.sent (normalizeMac macRaw) (optAddress body.broadcast) (optPort body.port),
       [⟨normalizeMac macRaw, optAddress body.broadcast, optPort body.port⟩])
    ∧ (optAddress body.broadcast = none →
        effectiveAddress ⟨normalizeMac macRaw, optAddress body.broadcast, optPort body.port⟩ =
          "255.255.255.255")
    ∧ (∀ a, optAddress body.broadcast = some a →
        effectiveAddress ⟨normalizeMac macRaw, optAddress body.broadcast, optPort body.port⟩ = a)
    ∧ (optPort body.port = none →
        effectivePort ⟨normalizeMac macRaw, optAddress body.broadcast, optPort body.port⟩ = 9)
    ∧ (∀ n, optPort body.port = some n →
        effectivePort ⟨normalizeMac macRaw, optAddress body.broadcast, optPort body.port⟩ = n) := by
  refine ⟨?_, ?_, ?_, ?_, ?_⟩
  · unfold agentWake
    rw [if_neg (not_not_intro hauth)]
    simp only [hmac, Bool.not_true]
    rw [if_neg (by simp)]
  · intro h
    simp [effectiveAddress, h]
  · intro a h
    simp [effectiveAddress, h]
  · intro h
    simp [effectivePort, h]
  · intro n h
    simp [effectivePort, h]

/-- Witness for the amended C6 with both overrides supplied and with
both omitted. -/
theorem relay_response_reports_overrides_check :
    agentWake "tok" (some "tok") "AA-BB-CC-DD-EE-FF" ⟨some " 10.0.2.255 ", some (.num 7)⟩
      (.ok ()) =
      (.sent "aa:bb:cc:dd:ee:ff" (some "10.0.2.255") (some 7),
       [⟨"aa:bb:cc:dd:ee:ff", some "10.0.2.255", some 7⟩])
    ∧ effectivePort ⟨"aa:bb:cc:dd:ee:ff", none, none⟩ = 9 := by
  have h := relay_response_reports_overrides "tok" (some "tok") "AA-BB-CC-DD-EE-FF"
    ⟨some " 10.0.2.255 ", some (.num 7)⟩ rfl (by decide)
  have h2 := relay_response_reports_overrides "tok" (some "tok") "AA-BB-CC-DD-EE-FF"
    ⟨none, none⟩ rfl (by decide)
  exact ⟨h.1, h2.2.2.2.1 rfl⟩

/-! ## C4: host-creation failure modes -/

/-- C4 counterexample: a request whose normalized mac duplicates a
stored host's canonical mac but whose agentId names no stored agent is
answered with the 400 validation error — the dangling-reference check
runs before the duplicate check, so the claimed unconditional 409 does
not hold. -/
theorem createHost_conflict_masked :
    normalizeMac "AA-BB-CC-DD-EE-FF" = "aa:bb:cc:dd:ee:ff"
    ∧ (∃ h ∈ stOneHost.hosts, h.mac = normalizeMac "AA-BB-CC-DD-EE-FF")
    ∧ createHost stOneHost "host_2" "pc" "AA-BB-CC-DD-EE-FF" (some "agent_ghost") =
        .error (.validation "agentId not found")
    ∧ exceptStatus
        (createHost stOneHost "host_2" "pc" "AA-BB-CC-DD-EE-FF" (some "agent_ghost")) = 400 := by
  refine ⟨by decide, ⟨⟨"host_1", "nas", "aa:bb:cc:dd:ee:ff", none⟩, by decide, by decide⟩,
    by decide, by decide⟩

/-- C4 (amended): a host creation whose request is otherwise acceptable
(non-empty name, well-formed mac, agentId absent or stored) fails with
409 Conflict whenever the normalized mac duplicates a stored one,
whatever separator style or case the request used; a creation whose
agentId is truthy and names no stored agent always fails with a 400
validation error; and every failing creation leaves the persisted state
unchanged. -/
theorem createHost_error_spec (st : Store) (freshId nameRaw macRaw : String)
    (agentIdRaw : Option String) :
    (jsTrim nameRaw ≠ "" → isMac (normalizeMac macRaw) = true →
      danglingAgent st (jsAgentField agentIdRaw) = false →
      (∃ h ∈ st.hosts, h.mac = normalizeMac macRaw) →
      createHost st freshId nameRaw macRaw agentIdRaw = .error (.conflict "mac already exists")
      ∧ exceptStatus (createHost st freshId nameRaw macRaw agentIdRaw) = 409)
    ∧ (danglingAgent st (jsAgentField agentIdRaw) = true →
        ∃ m, createHost st freshId nameRaw macRaw agentIdRaw = .error (.validation m)
          ∧ (ApiErr.validation m).status = 400)
    ∧ (∀ e, createHost st freshId nameRaw macRaw agentIdRaw = .error e →
        applyOp st (.createHost freshId nameRaw macRaw agentIdRaw) = st) := by
  refine ⟨?_, ?_, ?_⟩
  · intro hname hmac hdang hdup
    have hany : st.hosts.any (fun h => h.mac = normalizeMac macRaw) = true := by
      rw [List.any_eq_true]
      obtain ⟨h0, hm, he⟩ := hdup
      exact ⟨h0, hm, by simp [he]⟩
    constructor
    · simp [createHost, hname, hmac, hdang, hany]
    · simp [createHost, exceptStatus, hname, hmac, hdang, hany, ApiErr.status]
  · intro hdang
    by_cases hn : jsTrim nameRaw = ""
    · exact ⟨"name required", by simp [createHost, hn], rfl⟩
    · by_cases hm : isMac (normalizeMac macRaw) = true
      · exact ⟨"agentId not found", by simp [createHost, hn, hm, hdang], rfl⟩
      · have hm2 : isMac (normalizeMac macRaw) = false := by
          revert hm
          cases isMac (normalizeMac macRaw) <;> simp
        exact ⟨"invalid mac", by simp [createHost, hn, hm2], rfl⟩
  · intro e he
    show (match createHost st freshId nameRaw macRaw agentIdRaw with
      | Except.ok st1 => st1
      | Except.error _ => st) = st
    rw [he]

/-- Witness for the amended C4: an otherwise-valid duplicate creation is
refused with 409 and persists nothing. -/
theorem createHost_error_spec_check :
    createHost stOneHost "host_2" "pc" "aa-bb-cc-dd-ee-ff" none =
      .error (.conflict "mac already exists")
    ∧ applyOp stOneHost (.createHost "host_2" "pc" "aa-bb-cc-dd-ee-ff" none) = stOneHost := by
  have h := createHost_error_spec stOneHost "host_2" "pc" "aa-bb-cc-dd-ee-ff" none
  have h1 := h.1 (by decide) (by decide) (by decide)
    ⟨⟨"host_1", "nas", "aa:bb:cc:dd:ee:ff", none⟩, by decide, by decide⟩
  exact ⟨h1.1, h.2.2 (.conflict "mac already exists") h1.1⟩

/-! ## C3: agent deletion cascades atomically -/

/-- C3: deleting a stored agent succeeds with a single persisted write
in which every host that referenced it now has a null agentId and every
other host field is untouched, the agent is gone, and all other agents
survive; deleting an unknown id fails with 404 and the persisted state
is unchanged. -/
theorem deleteAgent_cascade (st : Store) (id : String) :
    ((∃ a ∈ st.agents, a.id = id) →
      ∃ st1, deleteAgent st id = .ok st1
        ∧ List.Forall₂ (fun (h h1 : Host) => h1.id = h.id ∧ h1.name = h.name ∧ h1.mac = h.mac
            ∧ h1.agentId = (if h.agentId = some id then none else h.agentId))
            st.hosts st1.hosts
        ∧ (∀ h ∈ st1.hosts, h.agentId ≠ some id)
        ∧ (∀ a ∈ st1.agents, a.id ≠ id)
        ∧ (∀ a ∈ st.agents, a.id ≠ id → a ∈ st1.agents))
    ∧ ((∀ a ∈ st.agents, a.id ≠ id) →
        deleteAgent st id = .error (.notFound "agent not found")
        ∧ applyOp st (.deleteAgent id) = st) := by
  constructor
  · intro hex
    have hlt : (st.agents.filter (fun a => !(a.id = id))).length < st.agents.length := by
      rw [List.length_filter_lt_length_iff_exists]
      obtain ⟨a, ha, hid⟩ := hex
      exact ⟨a, ha, by simp [hid]⟩
    refine ⟨⟨st.agents.filter (fun a => !(a.id = id)),
      st.hosts.map (fun h => if h.agentId = some id then ⟨h.id, h.name, h.mac, none⟩ else h)⟩,
      ?_, ?_, ?_, ?_, ?_⟩
    · unfold deleteAgent
      rw [if_neg (Nat.ne_of_lt hlt)]
    · rw [List.forall₂_map_right_iff, List.forall₂_same]
      intro h _
      by_cases hc : h.agentId = some id
      · simp [hc]
      · simp [hc]
    · intro h hmem
      obtain ⟨h0, _, rfl⟩ := List.mem_map.mp hmem
      by_cases hc : h0.agentId = some id
      · simp [hc]
      · simp [hc]
    · intro a hmem
      have := (List.mem_filter.mp hmem).2
      simpa using this
    · intro a hmem hne
      exact List.mem_filter.mpr ⟨hmem, by simp [hne]⟩
  · intro hnone
    have heq : st.agents.filter (fun a => !(a.id = id)) = st.agents :=
      List.filter_eq_self.mpr (fun a ha => by simp [hnone a ha])
    have hres : deleteAgent st id = .error (.notFound "agent not found") := by
      unfold deleteAgent
      rw [heq]
      rw [if_pos rfl]
    refine ⟨hres, ?_⟩
    show (match deleteAgent st id with
      | Except.ok st1 => st1
      | Except.error _ => st) = st
    rw [hres]

/-- Witness for C3 on a store whose agent is referenced by two of three
hosts. -/
theorem deleteAgent_cascade_check :
    (∃ st1, deleteAgent stCascade "agent_1" = .ok st1
      ∧ List.Forall₂ (fun (h h1 : Host) => h1.id = h.id ∧ h1.name = h.name ∧ h1.mac = h.mac
          ∧ h1.agentId = (if h.agentId = some "agent_1" then none else h.agentId))
          stCascade.hosts st1.hosts
      ∧ (∀ h ∈ st1.hosts, h.agentId ≠ some "agent_1")
      ∧ (∀ a ∈ st1.agents, a.id ≠ "agent_1")
      ∧ (∀ a ∈ stCascade.agents, a.id ≠ "agent_1" → a ∈ st1.agents))
    ∧ deleteAgent stCascade "agent_ghost" = .error (.notFound "agent not found") :=
  ⟨(deleteAgent_cascade stCascade "agent_1").1
      ⟨⟨"agent_1", "vlan2", "http://10.0.2.5:3001", "secret123"⟩, by decide, rfl⟩,
   ((deleteAgent_cascade stCascade "agent_ghost").2 (by decide)).1⟩

/-! ## Helper lemmas for the registry invariants (C2) -/

theorem normalizeMacL_map_normChar (l : List Char) :
    normalizeMacL l = (trimL l).map normChar := by
  unfold normalizeMacL
  rw [List.map_map]
  rfl

/-- A stored mac — always the `normalizeMac` of some request string that
passed `isMac` — is a fixpoint of `normalizeMac`. -/
theorem normalizeMac_fix {s : String} (h : isMac (normalizeMac s) = true) :
    normalizeMac (normalizeMac s) = normalizeMac s := by
  have hws : ∀ c ∈ normalizeMacL s.data, isWsChar c = false := macGroups_not_ws h
  show (⟨normalizeMacL (normalizeMacL s.data)⟩ : String) = ⟨normalizeMacL s.data⟩
  congr 1
  rw [normalizeMacL_map_normChar (normalizeMacL s.data), trimL_eq_self hws,
    normalizeMacL_map_normChar s.data]
  rw [List.map_map]
  apply List.map_congr_left
  intro c _
  exact normChar_idem c

theorem updateFirst_split {α : Type} (p : α → Bool) (f : α → α) :
    ∀ (l : List α) (x : α), l.find? p = some x →
    ∃ l1 l2, l = l1 ++ x :: l2 ∧ (∀ y ∈ l1, p y = false) ∧
      updateFirst p f l = l1 ++ f x :: l2
  | [], x, h => by simp at h
  | a :: l, x, h => by
    rw [List.find?_cons] at h
    by_cases hp : p a = true
    · rw [hp] at h
      injection h with h
      subst h
      refine ⟨[], l, rfl, ?_, ?_⟩
      · intro y hy
        exact absurd hy (List.not_mem_nil y)
      · simp [updateFirst, hp]
    · have hp2 : p a = false := by
        revert hp
        cases p a <;> simp
      rw [hp2] at h
      obtain ⟨l1, l2, h1, h2, h3⟩ := updateFirst_split p f l x h
      refine ⟨a :: l1, l2, by rw [List.cons_append, h1], ?_, ?_⟩
      · intro y hy
        rcases List.mem_cons.mp hy with rfl | hy
        · exact hp2
        · exact h2 y hy
      · rw [List.cons_append]
        simp [updateFirst, hp2, h3]

theorem mem_id_updateFirst (p : Agent → Bool) (f : Agent → Agent)
    (hf : ∀ x, (f x).id = x.id) (a : String) :
    ∀ (l : List Agent), (∃ x ∈ l, x.id = a) → ∃ x ∈ updateFirst p f l, x.id = a
  | [], h => by
    obtain ⟨x, hx, _⟩ := h
    cases hx
  | y :: ys, h => by
    obtain ⟨x, hx, hxa⟩ := h
    by_cases hp : p y = true
    · rcases List.mem_cons.mp hx with rfl | hx
      · exact ⟨f x, by simp [updateFirst, hp], by rw [hf x]; exact hxa⟩
      · exact ⟨x, by simp [updateFirst, hp, List.mem_cons, hx], hxa⟩
    · have hp2 : p y = false := by
        revert hp
        cases p y <;> simp
      rcases List.mem_cons.mp hx with rfl | hx
      · exact ⟨x, by simp [updateFirst, hp2], hxa⟩
      · obtain ⟨x1, hx1, hx1a⟩ := mem_id_updateFirst p f hf a ys ⟨x, hx, hxa⟩
        exact ⟨x1, by simp [updateFirst, hp2, List.mem_cons, Or.inr hx1], hx1a⟩

theorem exists_agent_of_not_dangling {st : Store} {ag : Option String} {x : String}
    (hd : danglingAgent st ag = false) (hx : jsOrNull ag = some x) :
    ∃ b ∈ st.agents, b.id = x := by
  cases ag with
  | none => simp [jsOrNull] at hx
  | some a =>
    by_cases ha : a = ""
    · simp [jsOrNull, ha] at hx
    · simp [jsOrNull, ha] at hx
      subst hx
      simp only [danglingAgent] at hd
      have h1 : (decide (a ≠ "") : Bool) = true := decide_eq_true ha
      rw [h1, Bool.true_and, Bool.not_eq_false'] at hd
      obtain ⟨b, hb, hid⟩ := List.any_eq_true.mp hd
      exact ⟨b, hb, by simpa using hid⟩

theorem pairwise_middle_replace {α : Type} {R : α → α → Prop} {l1 l2 : List α} {x y : α}
    (h1 : ∀ z ∈ l1, R z y) (h2 : ∀ z ∈ l2, R y z)
    (h : (l1 ++ x :: l2).Pairwise R) : (l1 ++ y :: l2).Pairwise R := by
  rw [List.pairwise_append] at h ⊢
  obtain ⟨ha, hb, hc⟩ := h
  rw [List.pairwise_cons] at hb ⊢
  refine ⟨ha, ⟨h2, hb.2⟩, ?_⟩
  intro a hal b hbl
  rcases List.mem_cons.mp hbl with rfl | hbm
  · exact h1 a hal
  · exact hc a hal b (List.mem_cons.mpr (Or.inr hbm))

theorem bool_eq_true_of_not_not {b : Bool} (h : ¬((!b) = true)) : b = true := by
  rcases Bool.eq_false_or_eq_true b with ht | hf
  · exact ht
  · exact absurd (by rw [hf]; rfl) h

theorem bool_eq_false_of_not {b : Bool} (h : ¬(b = true)) : b = false := by
  rcases Bool.eq_false_or_eq_true b with ht | hf
  · exact absurd ht h
  · exact hf

/-! ## Preservation of the registry invariants by each handler -/

theorem wf_createAgent {st st1 : Store} {i n u t : String}
    (hr : createAgent st i n u t = .ok st1) (hwf : StoreWF st) : StoreWF st1 := by
  unfold createAgent at hr
  dsimp only at hr
  split_ifs at hr
  injection hr with h
  subst h
  obtain ⟨href, hids, hcan, hmacs⟩ := hwf
  refine ⟨?_, hids, hcan, hmacs⟩
  intro h hm a ha
  obtain ⟨x, hx, hxa⟩ := href h hm a ha
  exact ⟨x, List.mem_append_left _ hx, hxa⟩

theorem wf_updateAgent {st st1 : Store} {id : String} {nf uf tf : Option String}
    (hr : updateAgent st id nf uf tf = .ok st1) (hwf : StoreWF st) : StoreWF st1 := by
  unfold updateAgent at hr
  cases hfind : st.agents.find? (fun a => a.id = id) with
  | none =>
    rw [hfind] at hr
    exact Except.noConfusion hr
  | some agent =>
    rw [hfind] at hr
    dsimp only at hr
    split_ifs at hr
    injection hr with h
    subst h
    obtain ⟨href, hids, hcan, hmacs⟩ := hwf
    refine ⟨?_, hids, hcan, hmacs⟩
    intro h hm a ha
    refine mem_id_updateFirst _ _ ?_ a st.agents (href h hm a ha)
    intro x
    rfl

theorem wf_deleteAgent {st st1 : Store} {id : String}
    (hr : deleteAgent st id = .ok st1) (hwf : StoreWF st) : StoreWF st1 := by
  unfold deleteAgent at hr
  dsimp only at hr
  split_ifs at hr
  injection hr with h
  subst h
  obtain ⟨href, hids, hcan, hmacs⟩ := hwf
  refine ⟨?_, ?_, ?_, ?_⟩
  · intro h hm a ha
    obtain ⟨h0, hm0, rfl⟩ := List.mem_map.mp hm
    by_cases hc : h0.agentId = some id
    · rw [if_pos hc] at ha
      simp at ha
    · rw [if_neg hc] at ha
      obtain ⟨x, hx, hxa⟩ := href h0 hm0 a ha
      have hane : a ≠ id := by
        intro heq
        subst heq
        exact hc ha
      refine ⟨x, List.mem_filter.mpr ⟨hx, ?_⟩, hxa⟩
      simp [hxa, hane]
  · rw [List.pairwise_map]
    refine hids.imp ?_
    intro g h hgh
    by_cases hg : g.agentId = some id <;> by_cases hh : h.agentId = some id <;>
      simp [hg, hh] <;> exact hgh
  · intro h hm
    obtain ⟨h0, hm0, rfl⟩ := List.mem_map.mp hm
    by_cases hc : h0.agentId = some id
    · simpa [hc] using hcan h0 hm0
    · simpa [hc] using hcan h0 hm0
  · rw [List.pairwise_map]
    refine hmacs.imp ?_
    intro g h hgh
    by_cases hg : g.agentId = some id <;> by_cases hh : h.agentId = some id <;>
      simp [hg, hh] <;> exact hgh

theorem wf_createHost {st st1 : Store} {i n m : String} {ag : Option String}
    (hr : createHost st i n m ag = .ok st1)
    (hfr : (st.hosts.any (fun h => h.id = i)) = false)
    (hwf : StoreWF st) : StoreWF st1 := by
  unfold createHost at hr
  dsimp only at hr
  split_ifs at hr with h1 h2 h3 h4
  injection hr with h
  subst h
  obtain ⟨href, hids, hcan, hmacs⟩ := hwf
  have hmac : isMac (normalizeMac m) = true := bool_eq_true_of_not_not h2
  have hd : danglingAgent st (jsAgentField ag) = false := bool_eq_false_of_not h3
  have hfr2 : ∀ x ∈ st.hosts, x.id ≠ i := by
    intro x hx
    have := List.any_eq_false.mp hfr x hx
    simpa using this
  have h4f : (st.hosts.any (fun h => h.mac = normalizeMac m)) = false := bool_eq_false_of_not h4
  have hnodup : ∀ x ∈ st.hosts, x.mac ≠ normalizeMac m := by
    intro x hx
    have := List.any_eq_false.mp h4f x hx
    simpa using this
  refine ⟨?_, ?_, ?_, ?_⟩
  · intro h hm2 a ha
    rcases List.mem_append.mp hm2 with hm2 | hm2
    · exact href h hm2 a ha
    · simp only [List.mem_singleton] at hm2
      subst hm2
      exact exists_agent_of_not_dangling hd ha
  · rw [List.pairwise_append]
    refine ⟨hids, List.pairwise_singleton _ _, ?_⟩
    intro a hal b hbl
    simp only [List.mem_singleton] at hbl
    subst hbl
    exact hfr2 a hal
  · intro h hm2
    rcases List.mem_append.mp hm2 with hm2 | hm2
    · exact hcan h hm2
    · simp only [List.mem_singleton] at hm2
      subst hm2
      exact normalizeMac_fix hmac
  · rw [List.pairwise_append]
    refine ⟨hmacs, List.pairwise_singleton _ _, ?_⟩
    intro a hal b hbl
    simp only [List.mem_singleton] at hbl
    subst hbl
    exact hnodup a hal

theorem wf_updateHost {st st1 : Store} {id : String} {nf mf : Option String}
    {af : Option (Option String)}
    (hr : updateHost st id nf mf af = .ok st1) (hwf : StoreWF st) : StoreWF st1 := by
  unfold updateHost at hr
  cases hfind : st.hosts.find? (fun h => h.id = id) with
  | none =>
    rw [hfind] at hr
    exact Except.noConfusion hr
  | some host =>
    rw [hfind] at hr
    dsimp only at hr
    split_ifs at hr with h1 h2 h3 h4
    injection hr with h
    subst h
    obtain ⟨href, hids, hcan, hmacs⟩ := hwf
    have hostmem : host ∈ st.hosts := List.mem_of_find?_eq_some hfind
    have hhostid : host.id = id := by
      have := List.find?_some hfind
      simpa using this
    have hM := bool_eq_true_of_not_not h2
    have hd := bool_eq_false_of_not h3
    have hfix : normalizeMac ((mf.map normalizeMac).getD host.mac) =
        (mf.map normalizeMac).getD host.mac := by
      cases mf with
      | some s => exact normalizeMac_fix (by exact hM)
      | none => exact hcan host hostmem
    have hno : ∀ y ∈ st.hosts, y.id ≠ id →
        y.mac ≠ (mf.map normalizeMac).getD host.mac := by
      intro y hy hne heq
      apply h4
      rw [List.any_eq_true]
      refine ⟨y, hy, ?_⟩
      cases mf with
      | some s => simp [hne]; exact heq
      | none => simp [hne]; exact heq
    obtain ⟨l1, l2, hsplit, hl1, hupd⟩ :=
      updateFirst_split (fun h => h.id = id) _ st.hosts host hfind
    have hl1id : ∀ y ∈ l1, y.id ≠ id := by
      intro y hy
      have := hl1 y hy
      simpa using this
    have hl2id : ∀ y ∈ l2, y.id ≠ id := by
      intro y hy
      rw [hsplit, List.pairwise_append] at hids
      have := hids.2.1
      rw [List.pairwise_cons] at this
      intro heq
      exact (this.1 y hy) (by rw [hhostid, heq])
    have hl1mem : ∀ y ∈ l1, y ∈ st.hosts := by
      intro y hy
      rw [hsplit]
      exact List.mem_append_left _ hy
    have hl2mem : ∀ y ∈ l2, y ∈ st.hosts := by
      intro y hy
      rw [hsplit]
      exact List.mem_append_right _ (List.mem_cons.mpr (Or.inr hy))
    rw [hupd]
    refine ⟨?_, ?_, ?_, ?_⟩
    · intro h hm a ha
      rcases List.mem_append.mp hm with hm | hm
      · exact href h (hl1mem h hm) a ha
      · rcases List.mem_cons.mp hm with rfl | hm
        · exact exists_agent_of_not_dangling hd ha
        · exact href h (hl2mem h hm) a ha
    · refine pairwise_middle_replace ?_ ?_ (by rw [← hsplit]; exact hids)
      · intro z hz
        show z.id ≠ host.id
        rw [hhostid]
        exact hl1id z hz
      · intro z hz
        show host.id ≠ z.id
        rw [hhostid]
        exact fun heq => hl2id z hz heq.symm
    · intro h hm
      rcases List.mem_append.mp hm with hm | hm
      · exact hcan h (hl1mem h hm)
      · rcases List.mem_cons.mp hm with rfl | hm
        · exact hfix
        · exact hcan h (hl2mem h hm)
    · refine pairwise_middle_replace ?_ ?_ (by rw [← hsplit]; exact hmacs)
      · intro z hz
        exact hno z (hl1mem z hz) (hl1id z hz)
      · intro z hz
        exact (hno z (hl2mem z hz) (hl2id z hz)).symm

theorem wf_deleteHost {st st1 : Store} {id : String}
    (hr : deleteHost st id = .ok st1) (hwf : StoreWF st) : StoreWF st1 := by
  unfold deleteHost at hr
  dsimp only at hr
  split_ifs at hr
  injection hr with h
  subst h
  obtain ⟨href, hids, hcan, hmacs⟩ := hwf
  have hsub := List.filter_sublist (p := fun h => !(h.id = id)) st.hosts
  refine ⟨?_, List.Pairwise.sublist hsub hids, ?_, List.Pairwise.sublist hsub hmacs⟩
  · intro h hm a ha
    exact href h (List.mem_filter.mp hm).1 a ha
  · intro h hm
    exact hcan h (List.mem_filter.mp hm).1

theorem wf_applyOp (st : Store) (op : Op) (hwf : StoreWF st) (hfresh : opFresh st op = true) :
    StoreWF (applyOp st op) := by
  cases hr : runOp st op with
  | error e =>
    have happ : applyOp st op = st := by
      unfold applyOp
      rw [hr]
    rw [happ]
    exact hwf
  | ok st1 =>
    have happ : applyOp st op = st1 := by
      unfold applyOp
      rw [hr]
    rw [happ]
    cases op with
    | createAgent i n u t => exact wf_createAgent hr hwf
    | updateAgent i n u t => exact wf_updateAgent hr hwf
    | deleteAgent i => exact wf_deleteAgent hr hwf
    | createHost i n m a =>
      refine wf_createHost hr ?_ hwf
      have hf : (!st.hosts.any (fun h => h.id = i)) = true := hfresh
      exact (Bool.not_eq_true' _) ▸ hf
    | updateHost i n m a => exact wf_updateHost hr hwf
    | deleteHost i => exact wf_deleteHost hr hwf

theorem reachable_wf {st : Store} (h : Reachable st) : StoreWF st := by
  induction h with
  | init =>
    refine ⟨?_, ?_, ?_, ?_⟩
    · intro h hm a ha
      exact absurd hm (List.not_mem_nil h)
    · exact List.Pairwise.nil
    · intro h hm
      exact absurd hm (List.not_mem_nil h)
    · exact List.Pairwise.nil
  | step st op hr hfresh ih => exact wf_applyOp st op ih hfresh

/-- C2: every persisted state reachable from the empty registry by the
six mutating operations satisfies the two spec invariants: each non-null
host `agentId` names a stored agent, and no two hosts share the same
canonical mac. -/
theorem registry_invariants_reachable (st : Store) (h : Reachable st) :
    HostsRefOk st ∧ MacsUnique st := by
  obtain ⟨href, hids, hcan, hmacs⟩ := reachable_wf h
  refine ⟨href, ?_⟩
  unfold MacsUnique
  refine hmacs.imp_of_mem ?_
  intro a b ha hb hne
  rw [hcan a ha, hcan b hb]
  exact hne

/-- Witness for C2 at a concrete two-step reachable state. -/
theorem registry_invariants_reachable_check : HostsRefOk stWitness ∧ MacsUnique stWitness :=
  registry_invariants_reachable stWitness
    (.step _ _ (.step _ _ .init (by decide)) (by decide))

end WoL
